import Mathlib

/-!
Verification of the ppk2 acquisition pipeline against its specification.

The definitions below are a shallow embedding of the Python sources:
`parser.py` (frame decoding and data-loss accounting), `conversion.py`
(ADC-to-current conversion and the spike filter), `types.py` (calibration
modifiers), `ppk2file.py` (capture-file save/load and the minimap folding)
and `device.py` (configuration-command validation).  Python floats are
modelled as rationals; Python ints as `Nat`/`Int`; byte strings as lists of
naturals.
-/

namespace PPK2

/-- One decoded measurement frame, `(adc_raw, range_idx, counter, logic)`,
exactly the tuple built inside `SampleParser.feed` in `parser.py`. -/
abbrev Frame := ℕ × ℕ × ℕ × ℕ

/-- The mutable state of `SampleParser` (`parser.py`): leftover bytes that do
not yet form a whole 4-byte frame, the expected 6-bit counter (`none` before
the first frame), the cumulative data-loss counter, the resync buffer of
out-of-sequence frames (`_corrupted_buffer`), and the number of
significant-loss log records emitted by `_report_dataloss`. -/
structure SampleParser where
  remainder : List ℕ
  expected_counter : Option ℕ
  dataloss_counter : ℕ
  corrupted_buffer : List Frame
  reports : ℕ
deriving DecidableEq, Repr

namespace SampleParser

/-- State produced by `SampleParser.__init__` / `reset`. -/
def init : SampleParser := ⟨[], none, 0, [], 0⟩

/-- `SampleParser._report_dataloss`: add `missing` to the cumulative loss
counter and emit one log record the first time the running total reaches the
threshold of 500 (`DATALOSS_THRESHOLD`).  The log call is modelled by
incrementing `reports`. -/
def report_dataloss (p : SampleParser) (missing : ℕ) : SampleParser :=
  let was_below := p.dataloss_counter < 500
  let newLoss := p.dataloss_counter + missing
  { p with
    dataloss_counter := newLoss
    reports := if was_below ∧ 500 ≤ newLoss then p.reports + 1 else p.reports }

/-- `SampleParser._check_counter`: counter-based loss handling for one decoded
frame.  Returns the updated state and the emitted items (`none` is a lost
sample placeholder).  The branch structure mirrors the source, including the
early return of the mismatch branch (which skips the trailing
advance-and-emit step). -/
def check_counter (p : SampleParser) (sample : Frame) :
    SampleParser × List (Option Frame) :=
  let counter := sample.2.2.1
  match p.expected_counter with
  | none =>
      ({ p with expected_counter := some ((counter + 1) % 64) }, [some sample])
  | some expected =>
      if p.corrupted_buffer ≠ [] ∧ counter = expected then
        ({ p with corrupted_buffer := []
                  expected_counter := some ((expected + 1) % 64) },
         p.corrupted_buffer.map some ++ [some sample])
      else if 4 < p.corrupted_buffer.length then
        let missing := (((counter : ℤ) - (expected : ℤ) + 64) % 64).toNat
        let p1 := report_dataloss p missing
        ({ p1 with corrupted_buffer := []
                   expected_counter := some ((counter + 1) % 64) },
         List.replicate missing none ++ [some sample])
      else if counter ≠ expected then
        ({ p with corrupted_buffer := p.corrupted_buffer ++ [sample]
                  expected_counter := some ((expected + 1) % 64) },
         [some sample])
      else
        ({ p with expected_counter := some ((expected + 1) % 64) }, [some sample])

/-- Decode one little-endian 4-byte frame:
bits 0-13 ADC (scaled by 4), 14-16 range, 18-23 counter, 24-31 logic. -/
def decodeFrame (b0 b1 b2 b3 : ℕ) : Frame :=
  let raw := b0 + 256 * b1 + 65536 * b2 + 16777216 * b3
  (raw % 16384 * 4, raw / 16384 % 8, raw / 262144 % 64, raw / 16777216 % 256)

/-- The frame-extraction loop of `SampleParser.feed`: consume whole 4-byte
frames from `data`, run each through `check_counter`, and store the trailing
fragment as the new remainder. -/
def feedLoop (p : SampleParser) (data : List ℕ) :
    SampleParser × List (Option Frame) :=
  match data with
  | b0 :: b1 :: b2 :: b3 :: rest =>
      let r1 := check_counter p (decodeFrame b0 b1 b2 b3)
      let r2 := feedLoop r1.1 rest
      (r2.1, r1.2 ++ r2.2)
  | rest => ({ p with remainder := rest }, [])

/-- `SampleParser.feed`: prepend the stored remainder to the new bytes and
run the frame-extraction loop. -/
def feed (p : SampleParser) (input : List ℕ) :
    SampleParser × List (Option Frame) :=
  feedLoop p (p.remainder ++ input)

/-- A sequence of `feed` calls, one per chunk (the per-iteration reads of the
acquisition loop in `device.py`). -/
def runFeeds (p : SampleParser) (chunks : List (List ℕ)) : SampleParser :=
  chunks.foldl (fun q c => (feed q c).1) p

/-- Four bytes encoding a frame with ADC 0, range 0, logic 0 and the given
counter value (valid for `c < 64`). -/
def mkFrameBytes (c : ℕ) : List ℕ := [0, 0, 4 * c, 0]

/-- Bytes of `n` consecutive well-formed frames whose counters run
`c, c+1, ...` taken mod 64. -/
def seqBytes : ℕ → ℕ → List ℕ
  | _, 0 => []
  | c, n + 1 => mkFrameBytes (c % 64) ++ seqBytes (c + 1) n

end SampleParser

/-- One finished measurement sample (`types.py`): calibrated current in
microamps, analog range, 8-bit digital bitmask, 6-bit rolling counter. -/
structure Sample where
  current_ua : ℚ
  range : ℕ
  logic : ℕ
  counter : ℕ
deriving DecidableEq, Repr

/-- A measurement aggregate (`types.py`): the sample sequence plus the
session summary fields. -/
structure MeasurementResult where
  samples : List Sample
  duration_s : ℚ
  sample_count : ℕ
  lost_samples : ℕ
deriving DecidableEq, Repr

/-- Round a rational to the nearest integer, ties to even. -/
def roundEven (q : ℚ) : ℤ :=
  let n := ⌊q⌋
  let frac := q - (n : ℚ)
  if frac < 1 / 2 then n
  else if 1 / 2 < frac then n + 1
  else if n % 2 = 0 then n else n + 1

/-- The integer exponent `e` with `2 ^ e ≤ q < 2 ^ (e + 1)`, for `q > 0`. -/
def qlog2 (q : ℚ) : ℤ :=
  if 1 ≤ q then Int.ofNat (Nat.log2 (Int.toNat ⌊q⌋))
  else -(Int.ofNat (Nat.clog 2 (Int.toNat ⌈1 / q⌉)))

/-- Binary32 rounding of a positive rational: round the significand to
24 bits (or, below the normal range `2 ^ (-126)`, to a multiple of the
subnormal step `2 ^ (-149)`), ties to even. -/
def f32roundPos (x : ℚ) : ℚ :=
  let scale : ℚ := (2 : ℚ) ^ (max (qlog2 x) (-126) - 23)
  (roundEven (x / scale) : ℚ) * scale

/-- Model of IEEE-754 binary32 round-to-nearest-even, as applied by
`struct.pack("<f", x)` in `save_ppk2` to each (finite) sample current.
Exponent overflow, on which `pack` raises instead of producing a value, is
outside the modelled domain and not represented. -/
def f32round (x : ℚ) : ℚ :=
  if x = 0 then 0
  else if 0 < x then f32roundPos x
  else -f32roundPos (-x)

/-- The packed `session.raw` record sequence built by `save_ppk2`
(`ppk2file.py`): one `(float32 current_ua, uint16 logic)` record per sample,
in order (`struct.pack_into("<fH", ...)`).  The 16-bit field is reduced mod
2^16; `struct.pack` requires `0 ≤ logic < 2^16` and agrees with this on that
domain. -/
def save_session (samples : List Sample) : List (ℚ × ℕ) :=
  samples.map (fun smp => (f32round smp.current_ua, smp.logic % 65536))

/-- `save_ppk2`: the persisted sample table of a result (the metadata record
and the minimap member are built separately; see `build_minimap`). -/
def save_ppk2 (result : MeasurementResult) : List (ℚ × ℕ) :=
  save_session result.samples

/-- `load_ppk2` (`ppk2file.py`): unpack the sample table; `range` is reset
to 0 and `counter` to `i & 0x3F` (neither is stored in the file),
`lost_samples` to 0, and `duration_s` is recomputed from the count and rate.
The indexed loop `for i in range(n_samples)` is modelled by zipping with
`List.range`. -/
def load_ppk2 (session : List (ℚ × ℕ)) (samples_per_second : ℕ) :
    MeasurementResult :=
  { samples := List.zipWith
      (fun idx rec => { current_ua := rec.1, range := 0, logic := rec.2,
                        counter := idx % 64 })
      (List.range session.length) session
    duration_s := if samples_per_second = 0 then 0
      else (session.length : ℚ) / (samples_per_second : ℚ)
    sample_count := session.length
    lost_samples := 0 }

/-- Greatest-lower bucket fold search of `_build_minimap` (`ppk2file.py`):
starting from fold factor 1, double until `n / fold_count ≤ 10000`.  The
Python loop tests `n / fold_count > MINIMAP_MAX_ELEMENTS` with exact-valued
float division; it is modelled by the equivalent integer comparison
`10000 * fold_count < n`.  The loop is given `fuel` recursion steps; `fuel =
n` always suffices since `n ≤ 10000 * 2 ^ n`. -/
def foldLevelAux : ℕ → ℕ → ℕ → ℕ → ℕ × ℕ
  | 0, _, fold_count, n_folds => (fold_count, n_folds)
  | fuel + 1, n, fold_count, n_folds =>
      if 10000 * fold_count < n then
        foldLevelAux fuel n (2 * fold_count) (n_folds + 1)
      else (fold_count, n_folds)

/-- Partition a list into contiguous buckets of `fc` elements, the last
bucket possibly shorter: the `range(0, n, fold_count)` bucket loop of
`_build_minimap`.  (`fc = 0` cannot occur: the fold factor starts at 1 and
doubles.) -/
def chunksOf {α : Type} (fc : ℕ) (l : List α) : List (List α) :=
  if h : fc = 0 ∨ l.isEmpty then []
  else l.take fc :: chunksOf fc (l.drop fc)
termination_by l.length
decreasing_by
  push_neg at h
  simp only [List.length_drop]
  have hne : l ≠ [] := by simpa [List.isEmpty_iff] using h.2
  have : 0 < l.length := List.length_pos.mpr hne
  omega

/-- `min(currents)` over a nonempty Python list (0 for the empty list, which
the callers never pass). -/
def listMin : List ℚ → ℚ
  | [] => 0
  | x :: xs => xs.foldl min x

/-- `max(currents)` over a nonempty Python list. -/
def listMax : List ℚ → ℚ
  | [] => 0
  | x :: xs => xs.foldl max x

/-- The minimap structure returned by `_build_minimap`: fold factor, the
min/max point arrays with their common length, the element cap and the
number of times the factor was doubled. -/
structure Minimap where
  lastElementFoldCount : ℕ
  dataLength : ℕ
  minPoints : List (ℚ × ℚ)
  maxPoints : List (ℚ × ℚ)
  maxNumberOfElements : ℕ
  numberOfTimesToFold : ℕ
deriving DecidableEq, Repr

/-- `_build_minimap` (`ppk2file.py`): pick the fold factor, bucket the
samples, and emit one `(timestamp_us, min * 1000)` and one
`(timestamp_us, max * 1000)` point per bucket, the timestamp taken from the
bucket's starting sample index. -/
def build_minimap (samples : List Sample) (samples_per_second : ℕ) :
    Minimap :=
  if samples = [] then ⟨0, 0, [], [], 10000, 0⟩
  else
    let n := samples.length
    let lv := foldLevelAux n n 1 0
    let us_per_sample : ℚ := 1000000 / (samples_per_second : ℚ)
    let buckets := chunksOf lv.1 samples
    let minPoints := buckets.enum.map
      (fun b => ((b.1 * lv.1 : ℚ) * us_per_sample,
                 listMin (b.2.map Sample.current_ua) * 1000))
    let maxPoints := buckets.enum.map
      (fun b => ((b.1 * lv.1 : ℚ) * us_per_sample,
                 listMax (b.2.map Sample.current_ua) * 1000))
    ⟨lv.1, minPoints.length, minPoints, maxPoints, 10000, lv.2⟩

/-- Per-device calibration modifiers (`types.py`): 5 ranges x 7 modifier
types, each a list of 5 per-range coefficients. -/
structure Modifiers where
  r : List ℚ
  gs : List ℚ
  gi : List ℚ
  o : List ℚ
  s : List ℚ
  i : List ℚ
  ug : List ℚ
deriving DecidableEq, Repr

/-- The default modifier values of `Modifiers` in `types.py`
(`r = [1031.64, 101.65, 10.15, 0.94, 0.043]`, unit gains, zero offsets). -/
def Modifiers.defaults : Modifiers :=
  { r := [103164 / 100, 10165 / 100, 1015 / 100, 94 / 100, 43 / 1000]
    gs := [1, 1, 1, 1, 1]
    gi := [1, 1, 1, 1, 1]
    o := [0, 0, 0, 0, 0]
    s := [0, 0, 0, 0, 0]
    i := [0, 0, 0, 0, 0]
    ug := [1, 1, 1, 1, 1] }

/-- `ADC_MULT = 1.8 / 163840` (`conversion.py`). -/
def ADC_MULT : ℚ := (18 / 10) / 163840

/-- `adc_to_microamps` (`conversion.py`): the quadratic-plus-linear
calibration correction.  Indexing is total via `getD`; the callers only pass
`range_idx` in 0..4 (Python raises `IndexError` outside that range). -/
def adc_to_microamps (adc_raw : ℤ) (range_idx : ℕ) (m : Modifiers)
    (vdd_mv : ℤ) : ℚ :=
  let rv := m.r.getD range_idx 0
  let gsv := m.gs.getD range_idx 0
  let giv := m.gi.getD range_idx 0
  let ov := m.o.getD range_idx 0
  let sv := m.s.getD range_idx 0
  let iv := m.i.getD range_idx 0
  let ugv := m.ug.getD range_idx 0
  let no_gain := ((adc_raw : ℚ) - ov) * (ADC_MULT / rv)
  let adc := ugv * (no_gain * (gsv * no_gain + giv) +
    (sv * ((vdd_mv : ℚ) / 1000) + iv))
  adc * 1000000

/-- The mutable state of `SpikeFilter` (`conversion.py`): the two EMA
accumulators (`none` before the first sample), the previously seen range,
the remaining transition-window budget and the count of consecutive
same-range samples, together with the constructor parameters `alpha`,
`alpha5` and `filter_samples`. -/
structure SpikeFilter where
  alpha : ℚ
  alpha5 : ℚ
  filter_samples : ℤ
  rolling_avg : Option ℚ
  rolling_avg4 : Option ℚ
  prev_range : Option ℕ
  after_spike : ℤ
  consecutive_range_sample : ℤ
deriving DecidableEq, Repr

namespace SpikeFilter

/-- `SpikeFilter()` with default parameters (`alpha=0.18`, `alpha5=0.06`,
`samples=3`), equal to the state after `reset`. -/
def init : SpikeFilter :=
  { alpha := 18 / 100, alpha5 := 6 / 100, filter_samples := 3
    rolling_avg := none, rolling_avg4 := none, prev_range := none
    after_spike := 0, consecutive_range_sample := 0 }

/-- `SpikeFilter.process`: update the EMAs, manage the range-transition
window, and return the (possibly smoothed) value together with the new
state.  The `getD 0` fallbacks are unreachable: the transition branch is
only entered after the averages have been initialized (the first call always
takes the stable branch since `prev_range` has just been set and
`after_spike = 0` after reset). -/
def process (f : SpikeFilter) (value : ℚ) (range_idx : ℕ) :
    SpikeFilter × ℚ :=
  let prev_avg := f.rolling_avg
  let prev_avg4 := f.rolling_avg4
  let f1 :=
    if f.rolling_avg = none then
      { f with rolling_avg := some value, rolling_avg4 := some value }
    else
      { f with
        rolling_avg :=
          some (f.alpha * value + (1 - f.alpha) * f.rolling_avg.getD 0)
        rolling_avg4 :=
          some (f.alpha5 * value + (1 - f.alpha5) * f.rolling_avg4.getD 0) }
  let f2 :=
    if f1.prev_range = none then { f1 with prev_range := some range_idx }
    else f1
  if f2.prev_range ≠ some range_idx ∨ 0 < f2.after_spike then
    let f3 :=
      if f2.prev_range ≠ some range_idx then
        { f2 with consecutive_range_sample := 0,
                  after_spike := f2.filter_samples }
      else
        { f2 with consecutive_range_sample := f2.consecutive_range_sample + 1 }
    let r4 : SpikeFilter × ℚ :=
      if range_idx = 4 then
        let f4 :=
          if f3.consecutive_range_sample < 2 then
            { f3 with rolling_avg4 := prev_avg4, rolling_avg := prev_avg }
          else f3
        (f4, f4.rolling_avg4.getD 0)
      else (f3, f3.rolling_avg.getD 0)
    ({ r4.1 with after_spike := r4.1.after_spike - 1,
                 prev_range := some range_idx }, r4.2)
  else
    ({ f2 with prev_range := some range_idx }, value)

/-- Repeated `process` calls with a fixed value and range; returns the final
state and the list of returned values in call order. -/
def processN (f : SpikeFilter) (value : ℚ) (range_idx : ℕ) :
    ℕ → SpikeFilter × List ℚ
  | 0 => (f, [])
  | n + 1 =>
      let r1 := process f value range_idx
      let r2 := processN r1.1 value range_idx n
      (r2.1, r1.2 :: r2.2)

end SpikeFilter

/-- A value token as it appears on one `Key: value` metadata line.
`parse_metadata` (`parser.py`) is modelled at line granularity: the source
replaces the literal `-nan` with `null` and hands the reassembled text to
`json.loads`, so a `-nan` value becomes JSON `null` (Python `None`) and a
numeric literal becomes its number; the purely textual reassembly
(`replace`/`strip`/`lower`) is not itself modelled. -/
inductive MetaValue
  | num (q : ℚ)
  | negNan
deriving DecidableEq, Repr

/-- `parse_metadata`: one dict entry per key/value line; a `-nan` token maps
the key to no value (`none`), a numeric token to its number, without any
numeric parse error. -/
def parse_metadata (lines : List (String × MetaValue)) :
    List (String × Option ℚ) :=
  lines.map (fun kv =>
    (kv.1, match kv.2 with
           | MetaValue.num q => some q
           | MetaValue.negNan => none))

/-- Python `meta.get(key)` on the parsed metadata dict: `None` both when the
key is absent and when its stored value is JSON null. -/
def metaGet (meta : List (String × Option ℚ)) (key : String) : Option ℚ :=
  match meta.lookup key with
  | none => none
  | some v => v

/-- The decimal digit strings `"0"`-`"4"` used to form coefficient keys. -/
def digitStr : ℕ → String
  | 0 => "0"
  | 1 => "1"
  | 2 => "2"
  | 3 => "3"
  | 4 => "4"
  | _ => ""

/-- The inner loop of `Modifiers.update_from_metadata` for one coefficient
array: for `idx` in 0..4, overwrite entry `idx` when `meta.get(key + idx)`
yields a value, keep it otherwise. -/
def updateField (arr : List ℚ) (meta : List (String × Option ℚ))
    (key : String) : List ℚ :=
  (List.range 5).foldl
    (fun a idx =>
      match metaGet meta (key ++ digitStr idx) with
      | some v => a.set idx v
      | none => a)
    arr

/-- `Modifiers.update_from_metadata` (`types.py`): run `updateField` for each
of the seven coefficient arrays (the outer loop over the key names). -/
def Modifiers.update_from_metadata (m : Modifiers)
    (meta : List (String × Option ℚ)) : Modifiers :=
  { r := updateField m.r meta "r"
    gs := updateField m.gs meta "gs"
    gi := updateField m.gi meta "gi"
    o := updateField m.o meta "o"
    s := updateField m.s meta "s"
    i := updateField m.i meta "i"
    ug := updateField m.ug meta "ug" }

/-- One of the seven coefficient names, for stating per-coefficient facts. -/
inductive CoeffKey
  | ckr
  | ckgs
  | ckgi
  | cko
  | cks
  | cki
  | ckug
deriving DecidableEq, Repr

/-- The metadata key text of a coefficient name. -/
def CoeffKey.keyStr : CoeffKey → String
  | .ckr => "r"
  | .ckgs => "gs"
  | .ckgi => "gi"
  | .cko => "o"
  | .cks => "s"
  | .cki => "i"
  | .ckug => "ug"

/-- The coefficient array a name selects in a `Modifiers`. -/
def CoeffKey.sel : CoeffKey → Modifiers → List ℚ
  | .ckr => Modifiers.r
  | .ckgs => Modifiers.gs
  | .ckgi => Modifiers.gi
  | .cko => Modifiers.o
  | .cks => Modifiers.s
  | .cki => Modifiers.i
  | .ckug => Modifiers.ug

/-- A command sent to the instrument.  `commands.py` encodes these as short
byte strings (`[0x0D, vdd >> 8, vdd & 0xFF]` and `[0x25, idx] + float32
gain`); the symbolic form is kept because the claims below only concern
whether a command reaches the transport. -/
inductive Cmd
  | regulator_set (vdd_mv : ℤ)
  | set_user_gains (range_idx : ℕ) (gain : ℚ)
deriving DecidableEq, Repr

/-- The `PPK2Device` session state relevant to configuration commands
(`device.py`): the cached source voltage, the user-gain modifier array, the
parser state, and the ordered list of commands written to the transport. -/
structure Device where
  vdd_mv : ℤ
  ug : List ℚ
  pstate : SampleParser
  written : List Cmd
deriving DecidableEq, Repr

/-- `PPK2Device.set_source_voltage`: reject voltages outside 800..5000 mV
with a `ValueError` before anything is sent; otherwise cache the voltage and
send the regulator command.  The Python exception is modelled as an
`Except.error` outcome paired with the (unchanged) state at the raise
point. -/
def set_source_voltage (d : Device) (vdd_mv : ℤ) :
    Device × Except String Unit :=
  if 800 ≤ vdd_mv ∧ vdd_mv ≤ 5000 then
    ({ d with vdd_mv := vdd_mv,
              written := d.written ++ [Cmd.regulator_set vdd_mv] },
     Except.ok ())
  else (d, Except.error "VDD must be 800-5000 mV")

/-- `PPK2Device.set_user_gain`: reject a range index outside 0..4 before
anything is sent; otherwise overwrite `modifiers.ug[range_idx]` and send the
gain command. -/
def set_user_gain (d : Device) (range_idx : ℤ) (gain : ℚ) :
    Device × Except String Unit :=
  if 0 ≤ range_idx ∧ range_idx ≤ 4 then
    ({ d with ug := d.ug.set range_idx.toNat gain,
              written := d.written ++
                [Cmd.set_user_gains range_idx.toNat gain] },
     Except.ok ())
  else (d, Except.error "Range must be 0-4")

/-- Whether any frame in a `feed` output has digital channel `mask` at
`level`: the early-return scan `bool(logic & mask) == level` of
`wait_for_digital`. -/
def framesHaveLevel (mask : ℕ) (level : Bool) : List (Option Frame) → Bool
  | [] => false
  | none :: rest => framesHaveLevel mask level rest
  | some fr :: rest =>
      if (decide (fr.2.2.2 &&& mask ≠ 0)) = level then true
      else framesHaveLevel mask level rest

/-- The poll loop of `wait_for_digital`: each entry of `chunks` is one
`read_available()` result (empty = idle poll, skipped without feeding), and
the end of the list is the wall-clock deadline, on which the loop returns
`false`.  The parser state advances by whole `feed` calls; the scan returns
as soon as a fed chunk contains a matching frame. -/
def waitLoop (d : Device) (mask : ℕ) (level : Bool) :
    List (List ℕ) → Device × Except String Bool
  | [] => (d, Except.ok false)
  | chunk :: rest =>
      if chunk = [] then waitLoop d mask level rest
      else
        let r := SampleParser.feed d.pstate chunk
        let d1 := { d with pstate := r.1 }
        if framesHaveLevel mask level r.2 then (d1, Except.ok true)
        else waitLoop d1 mask level rest

/-- `PPK2Device.wait_for_digital`: reject a channel outside 0..7 with a
`ValueError` before any transport interaction; otherwise run the poll/decode
loop with `mask = 1 << channel`. -/
def wait_for_digital (d : Device) (channel : ℤ) (level : Bool)
    (chunks : List (List ℕ)) : Device × Except String Bool :=
  if 0 ≤ channel ∧ channel ≤ 7 then
    waitLoop d (2 ^ channel.toNat) level chunks
  else (d, Except.error "Channel must be 0-7")

end PPK2

namespace PPK2

open SampleParser

/-- Decoding the 4-byte encoding of a counter-only frame recovers it. -/
lemma decode_mkFrame (c : ℕ) (hc : c < 64) :
    decodeFrame 0 0 (4 * c) 0 = (0, 0, c, 0) := by
  simp only [decodeFrame, Prod.mk.injEq]
  refine ⟨?_, ?_, ?_, ?_⟩ <;> omega

/-- Re-indexing step for an emitted in-sequence run of frames. -/
lemma cons_map_range_mod (c n : ℕ) :
    some ((0, 0, c % 64, 0) : Frame) ::
      (List.range n).map (fun k => some ((0, 0, (c + 1 + k) % 64, 0) : Frame)) =
      (List.range (n + 1)).map
        (fun k => some ((0, 0, (c + k) % 64, 0) : Frame)) := by
  rw [List.range_succ_eq_map, List.map_cons, List.map_map]
  refine congrArg₂ List.cons (by simp) ?_
  refine List.map_congr_left fun a _ => ?_
  simp only [Function.comp_apply, Option.some.injEq, Prod.mk.injEq]
  exact ⟨trivial, trivial, by omega, trivial⟩

/-- From a state whose expected counter is `c % 64` with an empty resync
buffer, an in-sequence run of `n` frames starting at counter `c` is emitted
in full, with no loss markers and no change to the loss counter. -/
lemma feedLoop_inseq (n : ℕ) :
    ∀ (c d rep : ℕ) (rem : List ℕ),
      feedLoop ⟨rem, some (c % 64), d, [], rep⟩ (seqBytes c n) =
        (⟨[], some ((c + n) % 64), d, [], rep⟩,
         (List.range n).map (fun k => some ((0, 0, (c + k) % 64, 0) : Frame))) := by
  induction n with
  | zero => intro c d rep rem; simp [seqBytes, feedLoop]
  | succ n ih =>
      intro c d rep rem
      show feedLoop _ (mkFrameBytes (c % 64) ++ seqBytes (c + 1) n) = _
      rw [show mkFrameBytes (c % 64) = [0, 0, 4 * (c % 64), 0] from rfl]
      simp only [List.cons_append, List.nil_append, feedLoop,
        decode_mkFrame (c % 64) (Nat.mod_lt _ (by norm_num)), check_counter]
      rw [if_neg (show ¬(4 : ℕ) < ([] : List Frame).length by simp)]
      simp only [ne_eq, eq_self_iff_true, not_true_eq_false, false_and,
        if_false, List.append_eq, List.nil_append, Nat.mod_add_mod]
      rw [ih (c + 1) d rep rem]
      refine Prod.ext ?_ ?_
      · simp only [SampleParser.mk.injEq, Option.some.injEq, and_true, true_and]
        omega
      · rw [List.singleton_append]
        exact cons_map_range_mod c n

/-- C3: feeding a freshly-reset parser `n` well-formed frames whose counters
run `c, c+1, ...` mod 64 (including the 63 wrapping to 0) yields exactly those
`n` frames in arrival order, no `none` loss markers, and a total data loss of
0. -/
theorem inseq_all_frames_no_loss (c n : ℕ) (hc : c < 64) :
    (feed init (seqBytes c n)).2 =
        (List.range n).map (fun k => some ((0, 0, (c + k) % 64, 0) : Frame)) ∧
    (feed init (seqBytes c n)).1.dataloss_counter = 0 := by
  have hc' : c % 64 = c := Nat.mod_eq_of_lt hc
  cases n with
  | zero => simp [feed, seqBytes, feedLoop, init]
  | succ n =>
      show (feed init (mkFrameBytes (c % 64) ++ seqBytes (c + 1) n)).2 = _ ∧ _
      rw [show mkFrameBytes (c % 64) = [0, 0, 4 * (c % 64), 0] from rfl]
      simp only [feed, init, List.nil_append, List.cons_append, feedLoop,
        decode_mkFrame (c % 64) (Nat.mod_lt _ (by norm_num)), check_counter]
      simp only [List.append_eq, List.nil_append, Nat.mod_add_mod]
      rw [feedLoop_inseq n (c + 1) 0 0 []]
      exact ⟨cons_map_range_mod c n, rfl⟩

/-- Witness for C3 at the wrap `63 → 0`. -/
theorem inseq_all_frames_no_loss_witness :
    63 < 64 ∧
    ((feed init (seqBytes 63 2)).2 =
        (List.range 2).map (fun k => some ((0, 0, (63 + k) % 64, 0) : Frame)) ∧
     (feed init (seqBytes 63 2)).1.dataloss_counter = 0) :=
  ⟨by decide, inseq_all_frames_no_loss 63 2 (by decide)⟩

/-- `check_counter` never decreases the cumulative data-loss counter. -/
lemma check_counter_dataloss_le (p : SampleParser) (s : Frame) :
    p.dataloss_counter ≤ (check_counter p s).1.dataloss_counter := by
  rw [check_counter]
  cases p.expected_counter with
  | none => simp
  | some e =>
      dsimp only
      split
      · simp
      · split
        · exact Nat.le_add_right _ _
        · split <;> simp

/-- `feedLoop` never decreases the cumulative data-loss counter. -/
lemma feedLoop_dataloss_le (p : SampleParser) (data : List ℕ) :
    p.dataloss_counter ≤ (feedLoop p data).1.dataloss_counter := by
  induction p, data using feedLoop.induct with
  | case1 p b0 b1 b2 b3 rest r1 ih =>
      rw [feedLoop]
      dsimp only
      exact le_trans (check_counter_dataloss_le p _) ih
  | case2 p rest h =>
      rcases rest with _ | ⟨b0, _ | ⟨b1, _ | ⟨b2, _ | ⟨b3, r⟩⟩⟩⟩
      · simp [feedLoop]
      · simp [feedLoop]
      · simp [feedLoop]
      · simp [feedLoop]
      · exact (h _ _ _ _ _ rfl).elim

/-- The significant-loss log count always equals 1 exactly when the running
loss total has reached the 500-frame threshold: `_report_dataloss` logs only
on the transition from below to at-or-above. -/
lemma report_dataloss_inv (p : SampleParser) (m : ℕ)
    (h : p.reports = if 500 ≤ p.dataloss_counter then 1 else 0) :
    (report_dataloss p m).reports =
      if 500 ≤ (report_dataloss p m).dataloss_counter then 1 else 0 := by
  rw [report_dataloss]
  dsimp only
  split_ifs at * <;> omega

/-- `check_counter` preserves the report/threshold invariant. -/
lemma check_counter_inv (p : SampleParser) (s : Frame)
    (h : p.reports = if 500 ≤ p.dataloss_counter then 1 else 0) :
    (check_counter p s).1.reports =
      if 500 ≤ (check_counter p s).1.dataloss_counter then 1 else 0 := by
  rw [check_counter]
  cases p.expected_counter with
  | none => simpa using h
  | some e =>
      dsimp only
      split
      · simpa using h
      · split
        · exact report_dataloss_inv p _ h
        · split <;> simpa using h

/-- `feedLoop` preserves the report/threshold invariant. -/
lemma feedLoop_inv (p : SampleParser) (data : List ℕ) :
    p.reports = (if 500 ≤ p.dataloss_counter then 1 else 0) →
    (feedLoop p data).1.reports =
      if 500 ≤ (feedLoop p data).1.dataloss_counter then 1 else 0 := by
  induction p, data using feedLoop.induct with
  | case1 p b0 b1 b2 b3 rest r1 ih =>
      intro h
      rw [feedLoop]
      dsimp only
      exact ih (check_counter_inv p _ h)
  | case2 p rest hm =>
      intro h
      rcases rest with _ | ⟨b0, _ | ⟨b1, _ | ⟨b2, _ | ⟨b3, r⟩⟩⟩⟩
      · simpa [feedLoop] using h
      · simpa [feedLoop] using h
      · simpa [feedLoop] using h
      · simpa [feedLoop] using h
      · exact (hm _ _ _ _ _ rfl).elim

/-- `runFeeds` preserves the report/threshold invariant. -/
lemma runFeeds_inv (chunks : List (List ℕ)) :
    ∀ p : SampleParser,
      p.reports = (if 500 ≤ p.dataloss_counter then 1 else 0) →
      (runFeeds p chunks).reports =
        if 500 ≤ (runFeeds p chunks).dataloss_counter then 1 else 0 := by
  induction chunks with
  | nil => intro p h; simpa [runFeeds] using h
  | cons c cs ih =>
      intro p h
      have : runFeeds p (c :: cs) = runFeeds (feed p c).1 cs := rfl
      rw [this]
      exact ih _ (feedLoop_inv p (p.remainder ++ c) h)

/-- C8: across any sequence of `feed` calls the cumulative data-loss counter
never decreases, and on any run from a freshly-reset parser the
significant-loss condition of `_report_dataloss` (the counter moving from
below 500 to at least 500) fires at most once, at the first crossing.
Decoding is total: data loss only appends loss markers, never fails. -/
theorem dataloss_monotone_single_report :
    (∀ (p : SampleParser) (chunk : List ℕ),
        p.dataloss_counter ≤ (feed p chunk).1.dataloss_counter) ∧
    (∀ chunks : List (List ℕ), (runFeeds init chunks).reports ≤ 1) := by
  constructor
  · intro p chunk
    exact feedLoop_dataloss_le p (p.remainder ++ chunk)
  · intro chunks
    have := runFeeds_inv chunks init (by simp [init])
    rw [this]
    split <;> omega

/-- Mapping a projection that only depends on the right input over a
`zipWith`. -/
lemma zipWith_map_right {α β γ δ : Type} (f : α → β → γ) (g : γ → δ)
    (g' : β → δ) (hfg : ∀ a b, g (f a b) = g' b) :
    ∀ (as : List α) (bs : List β), bs.length ≤ as.length →
      (List.zipWith f as bs).map g = bs.map g' := by
  intro as bs
  induction bs generalizing as with
  | nil => simp
  | cons b bs ih =>
      cases as with
      | nil => intro h; simp at h
      | cons a as =>
          intro h
          simp only [List.zipWith_cons_cons, List.map_cons, hfg]
          exact congrArg _ (ih as (by simpa using h))

/-- Mapping a projection that only depends on the left input over a
`zipWith`. -/
lemma zipWith_map_left {α β γ δ : Type} (f : α → β → γ) (g : γ → δ)
    (g' : α → δ) (hfg : ∀ a b, g (f a b) = g' a) :
    ∀ (as : List α) (bs : List β), as.length ≤ bs.length →
      (List.zipWith f as bs).map g = as.map g' := by
  intro as bs
  induction as generalizing bs with
  | nil => simp
  | cons a as ih =>
      cases bs with
      | nil => intro h; simp at h
      | cons b bs =>
          intro h
          simp only [List.zipWith_cons_cons, List.map_cons, hfg]
          exact congrArg _ (ih bs (by simpa using h))

/-- The loaded `logic` column is the stored 16-bit column. -/
lemma load_map_logic (session : List (ℚ × ℕ)) (sps : ℕ) :
    (load_ppk2 session sps).samples.map Sample.logic =
      session.map Prod.snd := by
  rw [load_ppk2]
  dsimp only
  exact zipWith_map_right
    (fun idx rec => (⟨rec.1, 0, rec.2, idx % 64⟩ : Sample))
    Sample.logic Prod.snd (fun a b => rfl)
    (List.range session.length) session (by simp)

/-- The loaded `current_ua` column is the stored float32 column. -/
lemma load_map_current (session : List (ℚ × ℕ)) (sps : ℕ) :
    (load_ppk2 session sps).samples.map Sample.current_ua =
      session.map Prod.fst := by
  rw [load_ppk2]
  dsimp only
  exact zipWith_map_right
    (fun idx rec => (⟨rec.1, 0, rec.2, idx % 64⟩ : Sample))
    Sample.current_ua Prod.fst (fun a b => rfl)
    (List.range session.length) session (by simp)

/-- Every loaded `range` is 0. -/
lemma load_map_range (session : List (ℚ × ℕ)) (sps : ℕ) :
    (load_ppk2 session sps).samples.map Sample.range =
      session.map (fun _ => 0) := by
  rw [load_ppk2]
  dsimp only
  exact zipWith_map_right
    (fun idx rec => (⟨rec.1, 0, rec.2, idx % 64⟩ : Sample))
    Sample.range (fun _ => 0) (fun a b => rfl)
    (List.range session.length) session (by simp)

/-- The loaded `counter` column is the record index mod 64. -/
lemma load_map_counter (session : List (ℚ × ℕ)) (sps : ℕ) :
    (load_ppk2 session sps).samples.map Sample.counter =
      (List.range session.length).map (fun idx => idx % 64) := by
  rw [load_ppk2]
  dsimp only
  exact zipWith_map_left
    (fun idx rec => (⟨rec.1, 0, rec.2, idx % 64⟩ : Sample))
    Sample.counter (fun idx => idx % 64) (fun a b => rfl)
    (List.range session.length) session (by simp)

/-- C1: reloading a saved result preserves `sample_count` (under the
documented invariant `sample_count == len(samples)`) and, per sample, the
16-bit `logic` field exactly and `current_ua` up to binary32 rounding
(`f32round`), while every reloaded `range` is 0 and the reloaded
`lost_samples` is 0, whatever was saved. -/
theorem save_load_roundtrip (result : MeasurementResult) (sps : ℕ)
    (hcount : result.sample_count = result.samples.length)
    (hlogic : ∀ smp ∈ result.samples, smp.logic < 65536) :
    (load_ppk2 (save_ppk2 result) sps).sample_count = result.sample_count ∧
    (load_ppk2 (save_ppk2 result) sps).samples.map Sample.logic =
      result.samples.map Sample.logic ∧
    (load_ppk2 (save_ppk2 result) sps).samples.map Sample.current_ua =
      result.samples.map (fun smp => f32round smp.current_ua) ∧
    (load_ppk2 (save_ppk2 result) sps).samples.map Sample.range =
      List.replicate result.samples.length 0 ∧
    (load_ppk2 (save_ppk2 result) sps).lost_samples = 0 := by
  have hlen : (save_ppk2 result).length = result.samples.length := by
    simp [save_ppk2, save_session]
  refine ⟨by simp [load_ppk2, hlen, hcount], ?_, ?_, ?_, rfl⟩
  · rw [load_map_logic, save_ppk2, save_session, List.map_map]
    exact List.map_congr_left fun smp hs =>
      Nat.mod_eq_of_lt (hlogic smp hs)
  · rw [load_map_current, save_ppk2, save_session, List.map_map]
    rfl
  · rw [load_map_range, save_ppk2, save_session, List.map_map]
    exact List.map_const' result.samples 0

/-- Witness for C1 at a one-sample result. -/
theorem save_load_roundtrip_witness :
    ((⟨[⟨1, 3, 7, 9⟩], 5, 1, 4⟩ : MeasurementResult).sample_count =
        (⟨[⟨1, 3, 7, 9⟩], 5, 1, 4⟩ : MeasurementResult).samples.length ∧
     ∀ smp ∈ (⟨[⟨1, 3, 7, 9⟩], 5, 1, 4⟩ : MeasurementResult).samples,
        smp.logic < 65536) ∧
    ((load_ppk2 (save_ppk2 ⟨[⟨1, 3, 7, 9⟩], 5, 1, 4⟩) 100000).sample_count =
        (⟨[⟨1, 3, 7, 9⟩], 5, 1, 4⟩ : MeasurementResult).sample_count ∧
     (load_ppk2 (save_ppk2 ⟨[⟨1, 3, 7, 9⟩], 5, 1, 4⟩) 100000).samples.map
        Sample.logic =
       (⟨[⟨1, 3, 7, 9⟩], 5, 1, 4⟩ : MeasurementResult).samples.map
        Sample.logic ∧
     (load_ppk2 (save_ppk2 ⟨[⟨1, 3, 7, 9⟩], 5, 1, 4⟩) 100000).samples.map
        Sample.current_ua =
       (⟨[⟨1, 3, 7, 9⟩], 5, 1, 4⟩ : MeasurementResult).samples.map
        (fun smp => f32round smp.current_ua) ∧
     (load_ppk2 (save_ppk2 ⟨[⟨1, 3, 7, 9⟩], 5, 1, 4⟩) 100000).samples.map
        Sample.range =
       List.replicate
        (⟨[⟨1, 3, 7, 9⟩], 5, 1, 4⟩ : MeasurementResult).samples.length 0 ∧
     (load_ppk2 (save_ppk2 ⟨[⟨1, 3, 7, 9⟩], 5, 1, 4⟩) 100000).lost_samples =
        0) :=
  ⟨⟨by decide, by decide⟩, save_load_roundtrip _ 100000 (by decide) (by decide)⟩

/-- C10: the `i`-th sample returned by `load_ppk2` always has counter
`i % 64`, for every saved result and rate: the saved counters are not
persisted and cannot be recovered. -/
theorem load_counter_is_index (result : MeasurementResult) (sps : ℕ) :
    (load_ppk2 (save_ppk2 result) sps).samples.map Sample.counter =
      (List.range result.samples.length).map (fun idx => idx % 64) := by
  have hlen : (save_ppk2 result).length = result.samples.length := by
    simp [save_ppk2, save_session]
  rw [load_map_counter, hlen]

/-- If the stopping condition already holds, the fold search stops at once. -/
lemma foldLevelAux_stop (fuel n fc folds : ℕ) (h : ¬10000 * fc < n) :
    foldLevelAux fuel n fc folds = (fc, folds) := by
  cases fuel <;> simp [foldLevelAux, h]

/-- With enough fuel the fold search reaches a factor covering `n`. -/
lemma foldLevelAux_le (fuel : ℕ) :
    ∀ n fc folds : ℕ, n ≤ 10000 * (2 ^ fuel * fc) →
      n ≤ 10000 * (foldLevelAux fuel n fc folds).1 := by
  induction fuel with
  | zero => intro n fc folds h; simpa [foldLevelAux] using h
  | succ fuel ih =>
      intro n fc folds h
      rw [foldLevelAux]
      split
      · refine ih n (2 * fc) (folds + 1) ?_
        have hpow : 2 ^ (fuel + 1) * fc = 2 ^ fuel * (2 * fc) := by ring
        rwa [hpow] at h
      · rename_i hlt; simp; omega

/-- The number of applied folds never decreases during the search. -/
lemma foldLevelAux_folds_le (fuel : ℕ) :
    ∀ n fc folds : ℕ, folds ≤ (foldLevelAux fuel n fc folds).2 := by
  induction fuel with
  | zero => intro n fc folds; simp [foldLevelAux]
  | succ fuel ih =>
      intro n fc folds
      rw [foldLevelAux]
      split
      · exact le_trans (Nat.le_succ folds) (ih n (2 * fc) (folds + 1))
      · simp

/-- The fold factor stays positive during the search. -/
lemma foldLevelAux_pos (fuel : ℕ) :
    ∀ n fc folds : ℕ, 0 < fc → 0 < (foldLevelAux fuel n fc folds).1 := by
  induction fuel with
  | zero => intro n fc folds h; simpa [foldLevelAux] using h
  | succ fuel ih =>
      intro n fc folds h
      rw [foldLevelAux]
      split
      · exact ih n (2 * fc) (folds + 1) (by omega)
      · simpa using h

/-- Bucketing a list of at most `fc * m` elements yields at most `m`
buckets. -/
lemma chunksOf_length_le {α : Type} (fc : ℕ) :
    ∀ (m : ℕ) (l : List α), l.length ≤ fc * m → (chunksOf fc l).length ≤ m := by
  intro m
  induction m with
  | zero =>
      intro l h
      have hl : l = [] := List.eq_nil_of_length_eq_zero (by omega)
      rw [chunksOf]
      simp [hl]
  | succ m ih =>
      intro l h
      rw [chunksOf]
      split
      · simp
      · rename_i hcond
        simp only [List.length_cons]
        have hd : (l.drop fc).length ≤ fc * m := by
          simp only [List.length_drop]
          have : fc * (m + 1) = fc * m + fc := by ring
          omega
        have := ih (l.drop fc) hd
        omega

/-- Bucketing with factor 1 yields one bucket per element. -/
lemma chunksOf_one_length {α : Type} :
    ∀ l : List α, (chunksOf 1 l).length = l.length := by
  intro l
  induction l with
  | nil => rw [chunksOf]; simp
  | cons x xs ih => rw [chunksOf]; simpa using ih

/-- C4: for at most 10000 samples, `_build_minimap` applies zero folds and
the overview length equals the sample count; for more than 10000 samples it
applies at least one fold (doubling the factor until
`n / fold_factor ≤ 10000`) and the overview length is at most 10000; the
empty list yields a zero-length overview with fold count 0. -/
theorem minimap_fold_bounds (samples : List Sample) (sps : ℕ) :
    (samples.length ≤ 10000 →
        (build_minimap samples sps).numberOfTimesToFold = 0 ∧
        (build_minimap samples sps).dataLength = samples.length) ∧
    (10000 < samples.length →
        1 ≤ (build_minimap samples sps).numberOfTimesToFold ∧
        (build_minimap samples sps).dataLength ≤ 10000) ∧
    (samples = [] →
        (build_minimap samples sps).dataLength = 0 ∧
        (build_minimap samples sps).numberOfTimesToFold = 0) := by
  by_cases hnil : samples = []
  · subst hnil
    refine ⟨fun _ => ⟨rfl, rfl⟩, fun h => absurd h (by simp), fun _ => ⟨rfl, rfl⟩⟩
  · have hn : 0 < samples.length := List.length_pos.mpr hnil
    rw [build_minimap, if_neg hnil]
    dsimp only
    refine ⟨?_, ?_, fun h => absurd h hnil⟩
    · intro hle
      rw [foldLevelAux_stop _ _ _ _ (by omega)]
      simp [chunksOf_one_length]
    · intro hgt
      constructor
      · obtain ⟨fuel, hfuel⟩ : ∃ k, samples.length = k + 1 :=
          ⟨samples.length - 1, by omega⟩
        rw [hfuel, foldLevelAux, if_pos (by omega)]
        simpa using foldLevelAux_folds_le fuel (fuel + 1) (2 * 1) (0 + 1)
      · have hcov : samples.length ≤
            10000 * (foldLevelAux samples.length samples.length 1 0).1 := by
          refine foldLevelAux_le samples.length samples.length 1 0 ?_
          have h2 : samples.length < 2 ^ samples.length :=
            Nat.lt_two_pow samples.length
          nlinarith
        simp only [List.length_map, List.enum_length]
        exact chunksOf_length_le _ 10000 samples (by omega)

/-- Witness for C4 at a one-sample list. -/
theorem minimap_fold_bounds_witness :
    ([(⟨0, 0, 0, 0⟩ : Sample)].length ≤ 10000) ∧
    ((build_minimap [⟨0, 0, 0, 0⟩] 100000).numberOfTimesToFold = 0 ∧
     (build_minimap [⟨0, 0, 0, 0⟩] 100000).dataLength =
        [(⟨0, 0, 0, 0⟩ : Sample)].length) :=
  ⟨by decide, (minimap_fold_bounds [⟨0, 0, 0, 0⟩] 100000).1 (by decide)⟩

/-- The first `process` call on a fresh filter initializes both averages and
the previous range and passes the value through. -/
lemma process_init (v : ℚ) (r : ℕ) :
    SpikeFilter.process SpikeFilter.init v r =
      (⟨18 / 100, 6 / 100, 3, some v, some v, some r, 0, 0⟩, v) := by
  rw [SpikeFilter.process]
  simp [SpikeFilter.init]

/-- In the settled state (both averages at `v`, previous range `r`, no open
transition window) `process v r` is the identity on the state and returns
`v`. -/
lemma process_stable (v : ℚ) (r : ℕ) :
    SpikeFilter.process ⟨18 / 100, 6 / 100, 3, some v, some v, some r, 0, 0⟩
        v r =
      (⟨18 / 100, 6 / 100, 3, some v, some v, some r, 0, 0⟩, v) := by
  rw [SpikeFilter.process]
  simp
  constructor <;> ring

/-- C6: on a freshly-reset spike filter, repeatedly processing a constant
value `v` at a constant range `r` returns `v` on every call (the stable
branch passes the raw value through unchanged), so the output is constantly
`v`. -/
theorem spike_filter_constant_passthrough (v : ℚ) (r : ℕ) (n : ℕ) :
    (SpikeFilter.processN SpikeFilter.init v r n).2 = List.replicate n v := by
  have key : ∀ m : ℕ,
      (SpikeFilter.processN ⟨18 / 100, 6 / 100, 3, some v, some v, some r,
        0, 0⟩ v r m).2 = List.replicate m v := by
    intro m
    induction m with
    | zero => rfl
    | succ m ih =>
        rw [SpikeFilter.processN, process_stable, List.replicate_succ]
        exact congrArg _ ih
  cases n with
  | zero => rfl
  | succ n =>
      rw [SpikeFilter.processN, process_init, List.replicate_succ]
      exact congrArg _ (key n)

/-- C7: with the all-default calibration modifiers, a raw ADC value of 0
converts to exactly 0 microamps for every range 0-4 and every source
voltage. -/
theorem adc_zero_default (range_idx : ℕ) (h : range_idx < 5) (vdd_mv : ℤ) :
    adc_to_microamps 0 range_idx Modifiers.defaults vdd_mv = 0 := by
  interval_cases range_idx <;>
    simp [adc_to_microamps, Modifiers.defaults, ADC_MULT]

/-- Witness for C7 at range 2 and 3700 mV. -/
theorem adc_zero_default_witness :
    2 < 5 ∧ adc_to_microamps 0 2 Modifiers.defaults 3700 = 0 :=
  ⟨by decide, adc_zero_default 2 (by decide) 3700⟩

/-- A coefficient slot whose metadata lookup yields no value survives the
per-array update fold untouched. -/
lemma updateField_get?_of_none (meta : List (String × Option ℚ))
    (key : String) (idx : ℕ)
    (habsent : metaGet meta (key ++ digitStr idx) = none) :
    ∀ (js : List ℕ) (arr : List ℚ),
      (js.foldl
        (fun a j =>
          match metaGet meta (key ++ digitStr j) with
          | some v => a.set j v
          | none => a)
        arr).get? idx = arr.get? idx := by
  intro js
  induction js with
  | nil => intro arr; rfl
  | cons j js ih =>
      intro arr
      rw [List.foldl_cons, ih]
      by_cases hj : j = idx
      · subst hj; rw [habsent]
      · rcases hmg : metaGet meta (key ++ digitStr j) with _ | v
        · rfl
        · dsimp only
          exact List.get?_set_ne _ _ hj

/-- C9: a metadata line whose value is the literal `-nan` parses to a key
with no value (JSON null) rather than a numeric error, and
`update_from_metadata` leaves a coefficient entry unchanged whenever its
metadata lookup yields no value (absent key or null value). -/
theorem negnan_null_and_update_keeps_entry
    (lines : List (String × MetaValue)) (k : String)
    (hk : (k, MetaValue.negNan) ∈ lines)
    (m : Modifiers) (meta : List (String × Option ℚ)) (ck : CoeffKey)
    (idx : ℕ) (hidx : idx < 5)
    (habsent : metaGet meta (ck.keyStr ++ digitStr idx) = none) :
    (k, (none : Option ℚ)) ∈ parse_metadata lines ∧
    (ck.sel (m.update_from_metadata meta)).get? idx =
      (ck.sel m).get? idx := by
  constructor
  · rw [parse_metadata]
    exact List.mem_map.mpr ⟨(k, MetaValue.negNan), hk, rfl⟩
  · cases ck <;>
      exact updateField_get?_of_none meta _ idx habsent (List.range 5) _

/-- Witness for C9: a one-line `-nan` metadata text, the `r` coefficient at
index 0, and an empty parsed dict. -/
theorem negnan_null_and_update_keeps_entry_witness :
    (("r0", MetaValue.negNan) ∈ [("r0", MetaValue.negNan)]) ∧
    (0 : ℕ) < 5 ∧
    metaGet [] (CoeffKey.ckr.keyStr ++ digitStr 0) = none ∧
    ((("r0" : String), (none : Option ℚ)) ∈
        parse_metadata [("r0", MetaValue.negNan)] ∧
     (CoeffKey.ckr.sel (Modifiers.defaults.update_from_metadata [])).get? 0 =
        (CoeffKey.ckr.sel Modifiers.defaults).get? 0) :=
  ⟨List.mem_singleton.mpr rfl, by decide, rfl,
   negnan_null_and_update_keeps_entry [("r0", MetaValue.negNan)] "r0"
     (List.mem_singleton.mpr rfl) Modifiers.defaults [] CoeffKey.ckr 0
     (by decide) rfl⟩

/-- C5: each invalid configuration argument - a source voltage outside
800..5000 mV, a user-gain range index outside 0..4, a digital channel
outside 0..7 - makes the operation fail with a `ValueError` while the device
state (cached `_vdd_mv`, `modifiers.ug`, parser state) and the transport
write log are exactly as before the call: nothing is sent. -/
theorem config_errors_reject_before_send
    (d : Device) (v r : ℤ) (g : ℚ) (ch : ℤ) (level : Bool)
    (chunks : List (List ℕ))
    (hv : ¬(800 ≤ v ∧ v ≤ 5000)) (hr : ¬(0 ≤ r ∧ r ≤ 4))
    (hch : ¬(0 ≤ ch ∧ ch ≤ 7)) :
    set_source_voltage d v = (d, Except.error "VDD must be 800-5000 mV") ∧
    set_user_gain d r g = (d, Except.error "Range must be 0-4") ∧
    wait_for_digital d ch level chunks =
      (d, Except.error "Channel must be 0-7") :=
  ⟨by rw [set_source_voltage, if_neg hv],
   by rw [set_user_gain, if_neg hr],
   by rw [wait_for_digital, if_neg hch]⟩

/-- Witness for C5 at 7000 mV, range 5 and channel 8. -/
theorem config_errors_reject_before_send_witness :
    ¬(800 ≤ (7000 : ℤ) ∧ (7000 : ℤ) ≤ 5000) ∧
    ¬(0 ≤ (5 : ℤ) ∧ (5 : ℤ) ≤ 4) ∧
    ¬(0 ≤ (8 : ℤ) ∧ (8 : ℤ) ≤ 7) ∧
    (set_source_voltage ⟨3700, [1, 1, 1, 1, 1], SampleParser.init, []⟩ 7000 =
        (⟨3700, [1, 1, 1, 1, 1], SampleParser.init, []⟩,
         Except.error "VDD must be 800-5000 mV") ∧
     set_user_gain ⟨3700, [1, 1, 1, 1, 1], SampleParser.init, []⟩ 5 1 =
        (⟨3700, [1, 1, 1, 1, 1], SampleParser.init, []⟩,
         Except.error "Range must be 0-4") ∧
     wait_for_digital ⟨3700, [1, 1, 1, 1, 1], SampleParser.init, []⟩ 8 true
        [] =
        (⟨3700, [1, 1, 1, 1, 1], SampleParser.init, []⟩,
         Except.error "Channel must be 0-7")) :=
  ⟨by decide, by decide, by decide,
   config_errors_reject_before_send _ 7000 5 1 8 true []
     (by decide) (by decide) (by decide)⟩

/-- C2: there is an input byte sequence on which `SampleParser.feed` emits the
same frame twice.  Feeding frames with counters 0, 5, 2: the counter-5 frame
mismatches the expected counter 1 while the resync buffer is empty (so holds
at most 4 frames), is emitted immediately and appended to the resync buffer;
the counter-2 frame then matches the expected counter with a non-empty
buffer, so the buffered frame is re-emitted before it, and the mismatched
frame `(0, 0, 5, 0)` appears twice in the cumulative output. -/
theorem duplicate_emission_on_resync :
    (feed init [0, 0, 0, 0, 0, 0, 20, 0]).2 =
        [some (0, 0, 0, 0), some (0, 0, 5, 0)] ∧
    (feed init [0, 0, 0, 0, 0, 0, 20, 0]).1.corrupted_buffer = [(0, 0, 5, 0)] ∧
    (feed init [0, 0, 0, 0, 0, 0, 20, 0, 0, 0, 8, 0]).2 =
        [some (0, 0, 0, 0), some (0, 0, 5, 0), some (0, 0, 5, 0),
         some (0, 0, 2, 0)] ∧
    ((feed init [0, 0, 0, 0, 0, 0, 20, 0, 0, 0, 8, 0]).2.count
        (some (0, 0, 5, 0))) = 2 := by
  decide

end PPK2
